import Mathlib

/-!
Verification of the quagga BGP peer-index directory, the library
first-stage initialisation, and the vty log-monitor bookkeeping.

The peer-index implementation file (bgp_peer_index.c) is not part of the
available sources; only its header (src/bgpd/bgp_peer_index.h) is.  The
directory is therefore modelled from the specification (sections 3, 4
and 9 of spec.md), keeping the names declared by the header.  The two
library files src/lib/qlib_init.c and src/lib/vty_log.c are embedded
directly from their source.
-/

namespace BGP

/-- Modelled from the spec: a configured BGP neighbour, externally owned.
The directory stores a non-owned reference; `enabled` is the
administrative state consulted by the accept path, `pid` identifies the
external object.  (bgp_peer in bgp_common.h, not among the sources.) -/
structure Peer where
  pid : Nat
  enabled : Bool
deriving DecidableEq, Repr

/-- Modelled from the spec: the per-entry pending-accept record -- the
accepted connection handle plus its admission deadline (spec section
4.3; the header only carries commented-out fields for this). -/
structure StagedConnection where
  handle : Nat
  deadline : Nat
deriving DecidableEq, Repr

/-- Modelled from the spec: the tagged per-slot state recommended by
spec section 9 in place of the self-referential next_free sentinel of
struct bgp_peer_index_entry: Free, or InUse with the peer reference,
the address (the sockunion "name", modelled as a Nat key with decidable
equality) and the optional staged connection. -/
inductive EntryState where
  | free : EntryState
  | inUse (peer : Peer) (su : Nat) (staged : Option StagedConnection) : EntryState
deriving DecidableEq, Repr

/-- Modelled from the spec: one slot of the entry pool.  `id` is the
PeerId, fixed at pool-growth time (position + 1, spec section 4.1) and
never renumbered. -/
structure Entry where
  id : Nat
  state : EntryState
deriving DecidableEq, Repr

/-- Modelled from the spec: the directory -- contiguous growable pool,
Address to slot index, index-based free list (spec section 9), and the
configured growth batch. -/
structure Directory where
  pool : List Entry
  index : Nat → Option Nat
  freeList : List Nat
  growth : Nat

/-- Modelled from the spec: bgp_peer_index_init -- pool pre-sized with
`n` slots, all Free, chained into the free list in order; slot i has
PeerId i + 1 (spec section 3, Lifecycle). -/
def bgp_peer_index_init (n g : Nat) : Directory :=
  { pool := (List.range n).map (fun i => { id := i + 1, state := EntryState.free }),
    index := fun _ => none,
    freeList := List.range n,
    growth := g }

/-- Replace the state of slot `i`, keeping its fixed PeerId. -/
def setEntryState (pool : List Entry) (i : Nat) (st : EntryState) : List Entry :=
  match pool[i]? with
  | some e => pool.set i { e with state := st }
  | none => pool

/-- Modelled from the spec: the batch of fresh Free slots appended on
pool growth; ids continue position + 1. -/
def growSlots (len g : Nat) : List Entry :=
  (List.range g).map (fun k => { id := len + k + 1, state := EntryState.free })

/-- Modelled from the spec: allocate -- pop the free-list head; if the
free list is empty, grow the pool by the configured batch, take the
first fresh slot and free-list the rest (spec section 4.1). -/
def allocate (d : Directory) : Nat × Directory :=
  match d.freeList with
  | i :: rest => (i, { d with freeList := rest })
  | [] =>
      let len := d.pool.length
      (len, { d with pool := d.pool ++ growSlots len d.growth,
                     freeList := (List.range (d.growth - 1)).map (fun k => len + 1 + k) })

/-- Modelled from the spec: bgp_peer_index_register (spec section 4.2).
A live duplicate address is a fatal invariant error, modelled as
`Except.error`.  Otherwise a slot is allocated, peer and address stored,
the address indexed, and the new PeerId returned. -/
def bgp_peer_index_register (peer : Peer) (su : Nat) (d : Directory) :
    Except Unit (Nat × Directory) :=
  match d.index su with
  | some _ => Except.error ()
  | none =>
      let r := allocate d
      let i := r.1
      let d1 := r.2
      match d1.pool[i]? with
      | some e =>
          Except.ok (e.id,
            { d1 with pool := d1.pool.set i { e with state := EntryState.inUse peer su none },
                      index := fun a => if a = su then some i else d1.index a })
      | none => Except.error ()

/-- Modelled from the spec: bgp_peer_index_deregister (spec section
4.2).  The address must map to an InUse entry whose stored peer matches;
any mismatch is a fatal invariant error.  The index entry is removed,
any staged connection discarded, and the slot released to the free
list. -/
def bgp_peer_index_deregister (peer : Peer) (su : Nat) (d : Directory) :
    Except Unit Directory :=
  match d.index su with
  | none => Except.error ()
  | some i =>
      match d.pool[i]? with
      | some e =>
          match e.state with
          | EntryState.inUse p _ _ =>
              if p = peer then
                Except.ok { d with pool := setEntryState d.pool i EntryState.free,
                                   index := fun a => if a = su then none else d.index a,
                                   freeList := i :: d.freeList }
              else Except.error ()
          | EntryState.free => Except.error ()
      | none => Except.error ()

/-- Modelled from the spec: bgp_peer_index_seek -- pure lookup, absence
is a normal outcome (spec section 4.2). -/
def bgp_peer_index_seek (su : Nat) (d : Directory) : Option Peer :=
  match d.index su with
  | none => none
  | some i =>
      match d.pool[i]? with
      | some e =>
          match e.state with
          | EntryState.inUse p _ _ => some p
          | EntryState.free => none
      | none => none

/-- Modelled from the spec: bgp_peer_index_seek_entry -- like seek but
returns the full entry view (spec section 4.2). -/
def bgp_peer_index_seek_entry (su : Nat) (d : Directory) : Option Entry :=
  match d.index su with
  | none => none
  | some i => d.pool[i]?

/-- Modelled from the spec: bgp_peer_index_seek_accept (spec section
4.3).  Absent or administratively disabled: found = false, no side
effect.  Present and enabled: the accepted connection (handle plus
admission deadline) replaces the staged connection of the entry and
found = true is returned with the handle. -/
def bgp_peer_index_seek_accept (su conn deadline : Nat) (d : Directory) :
    (Option Nat × Bool) × Directory :=
  match d.index su with
  | none => ((none, false), d)
  | some i =>
      match d.pool[i]? with
      | some e =>
          match e.state with
          | EntryState.inUse p a _ =>
              if p.enabled then
                let st : StagedConnection := { handle := conn, deadline := deadline }
                let e1 : Entry := { e with state := EntryState.inUse p a (some st) }
                ((some conn, true), { d with pool := d.pool.set i e1 })
              else ((none, false), d)
          | EntryState.free => ((none, false), d)
      | none => ((none, false), d)

/-- The directory operations, for traces of calls. -/
inductive DirOp where
  | reg (peer : Peer) (su : Nat) : DirOp
  | dereg (peer : Peer) (su : Nat) : DirOp
  | look (su : Nat) : DirOp
  | lookEntry (su : Nat) : DirOp
  | accept (su conn deadline : Nat) : DirOp
deriving DecidableEq, Repr

/-- One directory call; a fatal invariant error is `Except.error`. -/
def stepOp (d : Directory) : DirOp → Except Unit Directory
  | DirOp.reg p su => (bgp_peer_index_register p su d).map Prod.snd
  | DirOp.dereg p su => bgp_peer_index_deregister p su d
  | DirOp.look _ => Except.ok d
  | DirOp.lookEntry _ => Except.ok d
  | DirOp.accept su c t => Except.ok (bgp_peer_index_seek_accept su c t d).2

/-- Run a sequence of directory calls, stopping at the first fatal
error. -/
def runTrace (d : Directory) : List DirOp → Except Unit Directory
  | [] => Except.ok d
  | op :: rest =>
      match stepOp d op with
      | Except.ok d1 => runTrace d1 rest
      | Except.error e => Except.error e

/-- A directory state produced from some initial pool by a sequence of
calls that all succeeded (growth batch at least 1, spec section 6: the
growth parameter comes from process configuration). -/
def Reachable (d : Directory) : Prop :=
  ∃ n g tr, 1 ≤ g ∧ runTrace (bgp_peer_index_init n g) tr = Except.ok d

/-- The registration history view of one address: the peer most
recently registered for it, none after a matching deregister. -/
def viewStep (a : Nat) (acc : Option Peer) : DirOp → Option Peer
  | DirOp.reg p su => if su = a then some p else acc
  | DirOp.dereg _ su => if su = a then none else acc
  | DirOp.look _ => acc
  | DirOp.lookEntry _ => acc
  | DirOp.accept _ _ _ => acc

/-- Internal consistency of a directory state: positive position-fixed
ids, index entries pointing to InUse slots of the indexed address,
injective index, free-listed slots Free and listed once. -/
def Inv (d : Directory) : Prop :=
  1 ≤ d.growth ∧
  (∀ i e, d.pool[i]? = some e → e.id = i + 1) ∧
  (∀ a i, d.index a = some i →
     ∃ e p st, d.pool[i]? = some e ∧ e.state = EntryState.inUse p a st) ∧
  (∀ a b i, d.index a = some i → d.index b = some i → a = b) ∧
  (∀ i, i ∈ d.freeList → ∃ e, d.pool[i]? = some e ∧ e.state = EntryState.free) ∧
  d.freeList.Nodup

end BGP

namespace Qlib

/-- INT_MAX for the 32-bit int of the target platform. -/
def INT_MAX : Int := 2147483647

/-- One row of the qlib_vars table of qlib_init.c: the bounds a probed
system parameter must satisfy (the p_var, sc and name fields only steer
I/O and diagnostics and carry no arithmetic content). -/
structure QlibVar where
  min : Int
  max : Int
deriving DecidableEq, Repr

/-- qlib_vars row for _SC_IOV_MAX: min 16, max INT_MAX. -/
def qvar_iov_max : QlibVar := { min := 16, max := INT_MAX }

/-- qlib_vars row for _SC_OPEN_MAX: min 256, max INT_MAX. -/
def qvar_open_max : QlibVar := { min := 256, max := INT_MAX }

/-- qlib_vars row for _SC_PAGESIZE: min 256, max (INT_MAX >> 1) + 1. -/
def qvar_pagesize : QlibVar := { min := 256, max := INT_MAX / 2 + 1 }

/-- The outcome of one sysconf call: the returned long and the errno
value observed after the call (errno is zeroed before each call). -/
structure SysconfResult where
  val : Int
  errno : Nat
deriving DecidableEq, Repr

/-- The range check of qlib_init_first_stage: `(val < min) || (val >
max)` prints and exits the process with code 1; otherwise the value is
stored. -/
def checkRange (v : QlibVar) (val : Int) : Except Nat Int :=
  if val < v.min ∨ v.max < val then Except.error 1 else Except.ok val

/-- One iteration of the qlib_init_first_stage loop: sysconf returning
-1 with errno 0 means no limit and is taken as INT_MAX; -1 with a real
errno exits with code 1; the (possibly substituted) value then passes
the range check. -/
def probeVar (v : QlibVar) (r : SysconfResult) : Except Nat Int :=
  if r.val = -1 then
    if r.errno = 0 then checkRange v INT_MAX
    else Except.error 1
  else checkRange v r.val

/-- The three globals set by qlib_init_first_stage. -/
structure QlibState where
  qlib_iov_max : Int
  qlib_open_max : Int
  qlib_pagesize : Int
deriving DecidableEq, Repr

/-- qlib_init_first_stage: probe the qlib_vars table rows in order
against the sysconf environment (indexed by table position), stopping
at the first failure; an error models exit(1). -/
def qlib_init_first_stage (env : Nat → SysconfResult) : Except Nat QlibState :=
  match probeVar qvar_iov_max (env 0) with
  | Except.error c => Except.error c
  | Except.ok a =>
      match probeVar qvar_open_max (env 1) with
      | Except.error c => Except.error c
      | Except.ok b =>
          match probeVar qvar_pagesize (env 2) with
          | Except.error c => Except.error c
          | Except.ok p =>
              Except.ok { qlib_iov_max := a, qlib_open_max := b, qlib_pagesize := p }


/-- A sysconf environment where every probe answers 1024 cleanly. -/
def envGood : Nat → SysconfResult := fun _ => { val := 1024, errno := 0 }

end Qlib

namespace Vty

/-- ZLOG_DISABLED sits below every syslog priority (LOG_EMERG - 1);
log_local.h is not among the sources, but no result below depends on
the concrete value, only on the Int order. -/
def ZLOG_DISABLED : Int := -1

/-- The fields of a vty_io object read or written by vty_log.c:
whether vout_base->vout_type == VOUT_TERM, whether vout_base->vout_state
has vf_cease or vf_end set, the monitor flag, the monitor level maxlvl,
and whether the mbuf FIFO exists. -/
structure VioRec where
  voutIsTerm : Bool
  voutCeased : Bool
  monitor : Bool
  maxlvl : Int
  hasMbuf : Bool
deriving DecidableEq, Repr

/-- The monitor-facility state of vty_log.c: the vio objects (keyed by
identity), the vio_monitor_list (as the list of keys, in list order),
the monitor_count static, and the level last passed to
uzlog_set_monitor (also returned by uzlog_get_monitor_lvl). -/
structure MonState where
  vios : Nat → VioRec
  mlist : List Nat
  monitor_count : Nat
  zlogLvl : Int

/-- The level scan of uty_monitor_update: start from ZLOG_DISABLED and
take every listed maxlvl that is not below the running level. -/
def effLevel (s : MonState) : Int :=
  s.mlist.foldl
    (fun lv v => if lv ≤ (s.vios v).maxlvl then (s.vios v).maxlvl else lv)
    ZLOG_DISABLED

/-- Replace the vio record stored under key `id`. -/
def setVio (s : MonState) (id : Nat) (v : VioRec) : MonState :=
  { s with vios := fun j => if j = id then v else s.vios j }

/-- uty_monitor_update: monitor_count += delta, then walk the list to
establish the maximum level and hand it to uzlog_set_monitor.  The C
counter is unsigned; under the invariant proved below the sum never
goes negative, so Int.toNat is exact. -/
def uty_monitor_update (delta : Int) (s : MonState) : MonState :=
  { s with monitor_count := ((s.monitor_count : Int) + delta).toNat,
           zlogLvl := effLevel s }

/-- The forced value of `how` at the top of uty_monitor_set: off
unless the base vout is a VOUT_TERM that is not ceasing or ended. -/
def monHow (s : MonState) (id : Nat) (how : Bool) : Bool :=
  if (!(s.vios id).voutIsTerm) || (s.vios id).voutCeased then false else how

/-- uty_monitor_set: `how` is forced off unless the base vout is a
live VOUT_TERM; turning on appends the vio (seeding maxlvl from
uzlog_get_monitor_lvl and making sure an mbuf exists), turning off
removes it, and uty_monitor_update runs in every case. -/
def uty_monitor_set (s : MonState) (id : Nat) (how : Bool) : MonState :=
  if monHow s id how && !(s.vios id).monitor then
    uty_monitor_update 1
      { setVio s id { s.vios id with
          monitor := true, maxlvl := s.zlogLvl, hasMbuf := true } with
        mlist := s.mlist ++ [id] }
  else if !(monHow s id how) && (s.vios id).monitor then
    uty_monitor_update (-1)
      { setVio s id { s.vios id with
          maxlvl := ZLOG_DISABLED, monitor := false } with
        mlist := s.mlist.erase id }
  else
    uty_monitor_update 0 s

/-- vty_monitor_set_level: if the vio is a monitor, store the new
maxlvl and rerun uty_monitor_update with delta 0. -/
def vty_monitor_set_level (s : MonState) (id : Nat) (level : Int) : MonState :=
  if (s.vios id).monitor then
    uty_monitor_update 0 (setVio s id { s.vios id with maxlvl := level })
  else s

/-- The monitor bookkeeping invariant: monitor_count matches the list,
the monitor flag matches list membership, each vio is listed at most
once, and the level last given to uzlog_set_monitor is the level scan
of the current list. -/
def MonInv (s : MonState) : Prop :=
  s.monitor_count = s.mlist.length ∧
  (∀ id, (s.vios id).monitor = true ↔ id ∈ s.mlist) ∧
  s.mlist.Nodup ∧
  s.zlogLvl = effLevel s


/-- A vio that is monitoring while its vout has ceased (vf_cease set
after the monitor was enabled, before anyone turned it off). -/
def cexVio : VioRec :=
  { voutIsTerm := true, voutCeased := true, monitor := true, maxlvl := 3, hasMbuf := true }

/-- A vio that is not monitoring. -/
def cexOff : VioRec :=
  { voutIsTerm := true, voutCeased := false, monitor := false,
    maxlvl := ZLOG_DISABLED, hasMbuf := false }

/-- A consistent monitor state whose single monitor vio 0 has a ceased
vout. -/
def cexState : MonState :=
  { vios := fun j => if j = 0 then cexVio else cexOff,
    mlist := [0], monitor_count := 1, zlogLvl := 3 }

/-- A healthy monitoring vio. -/
def goodVio : VioRec :=
  { voutIsTerm := true, voutCeased := false, monitor := true, maxlvl := 5, hasMbuf := true }

/-- A consistent monitor state whose single monitor vio 0 is healthy. -/
def goodState : MonState :=
  { vios := fun j => if j = 0 then goodVio else cexOff,
    mlist := [0], monitor_count := 1, zlogLvl := 5 }

end Vty

namespace BGP

/-- Extract the directory of a successful run (used only to name
concrete example states for the closed witness statements below). -/
def okDir (x : Except Unit Directory) : Directory :=
  match x with
  | Except.ok d => d
  | Except.error _ => bgp_peer_index_init 0 1

/-- Example trace: register, stage an accept, deregister, re-register
the same address to another peer. -/
def wtr1 : List DirOp :=
  [DirOp.reg { pid := 1, enabled := true } 10,
   DirOp.accept 10 7 99,
   DirOp.dereg { pid := 1, enabled := true } 10,
   DirOp.reg { pid := 3, enabled := true } 10]

/-- The directory the example trace wtr1 produces. -/
def wd1 : Directory := okDir (runTrace (bgp_peer_index_init 2 1) wtr1)

/-- Example trace: an enabled peer at address 10 and a disabled peer at
address 20, filling the initial pool. -/
def wtrAB : List DirOp :=
  [DirOp.reg { pid := 1, enabled := true } 10,
   DirOp.reg { pid := 2, enabled := false } 20]

/-- The directory the example trace wtrAB produces. -/
def wdAB : Directory := okDir (runTrace (bgp_peer_index_init 2 1) wtrAB)

/-- The directory after one more register on wdAB (pool must grow). -/
def wdC5 : Directory :=
  okDir ((bgp_peer_index_register { pid := 9, enabled := true } 33 wdAB).map Prod.snd)

end BGP

namespace BGP

/-- getElem? on List.range, as an if. -/
theorem getElem?_range_ite (n i : Nat) :
    (List.range n)[i]? = if i < n then (some i : Option Nat) else none := by
  split
  · exact List.getElem?_range (by assumption)
  · refine List.getElem?_eq_none ?_
    simpa using Nat.le_of_not_lt (by assumption)

/-- The initial pool, slot by slot. -/
theorem init_pool_getElem (n g i : Nat) :
    (bgp_peer_index_init n g).pool[i]? =
      if i < n then some { id := i + 1, state := EntryState.free } else none := by
  simp only [bgp_peer_index_init, List.getElem?_map, getElem?_range_ite]
  split <;> rfl

/-- The grown batch, slot by slot. -/
theorem growSlots_getElem (len g k : Nat) :
    (growSlots len g)[k]? =
      if k < g then some { id := len + k + 1, state := EntryState.free } else none := by
  simp only [growSlots, List.getElem?_map, getElem?_range_ite]
  split <;> rfl

/-- The initial directory satisfies the directory invariant. -/
theorem inv_init (n g : Nat) (hg : 1 ≤ g) : Inv (bgp_peer_index_init n g) := by
  refine ⟨hg, ?_, ?_, ?_, ?_, ?_⟩
  · intro i e he
    rw [init_pool_getElem] at he
    split at he
    · cases he; rfl
    · cases he
  · intro a i h
    cases h
  · intro a b i ha hb
    cases ha
  · intro i hi
    have hin : i < n := by simpa [bgp_peer_index_init] using hi
    refine ⟨{ id := i + 1, state := EntryState.free }, ?_, rfl⟩
    rw [init_pool_getElem]
    simp [hin]
  · simpa [bgp_peer_index_init] using List.nodup_range n

/-- What allocate guarantees on an invariant-satisfying directory:
index and growth untouched, the allocated slot holds a Free entry, old
entries survive, ids stay position-fixed, the remaining free list only
holds other Free slots and stays duplicate-free, the allocated slot
comes from the free list or is the first fresh slot, and a non-empty
free list means the pool does not move. -/
theorem allocate_spec (d : Directory) (hInv : Inv d) :
    (allocate d).2.index = d.index ∧
    (allocate d).2.growth = d.growth ∧
    (∃ e, (allocate d).2.pool[(allocate d).1]? = some e ∧ e.state = EntryState.free) ∧
    (∀ (j : Nat) (e : Entry), d.pool[j]? = some e → (allocate d).2.pool[j]? = some e) ∧
    (∀ (j : Nat) (e : Entry), (allocate d).2.pool[j]? = some e → e.id = j + 1) ∧
    (∀ j : Nat, j ∈ (allocate d).2.freeList → j ≠ (allocate d).1 ∧
       ∃ e, (allocate d).2.pool[j]? = some e ∧ e.state = EntryState.free) ∧
    (allocate d).2.freeList.Nodup ∧
    ((allocate d).1 ∈ d.freeList ∨ (allocate d).1 = d.pool.length) ∧
    (d.freeList ≠ [] → (allocate d).2.pool = d.pool) := by
  obtain ⟨hg, hids, hidx, hinj, hfree, hnd⟩ := hInv
  match hfl : d.freeList with
  | i :: rest =>
      have hmem : i ∈ d.freeList := by rw [hfl]; exact List.mem_cons_self i rest
      have hndc := hfl ▸ hnd
      rw [List.nodup_cons] at hndc
      have h1 : (allocate d).1 = i := by simp [allocate, hfl]
      have hpool : (allocate d).2.pool = d.pool := by simp [allocate, hfl]
      have hflr : (allocate d).2.freeList = rest := by simp [allocate, hfl]
      have hidx2 : (allocate d).2.index = d.index := by simp [allocate, hfl]
      have hg2 : (allocate d).2.growth = d.growth := by simp [allocate, hfl]
      refine ⟨hidx2, hg2, ?_, ?_, ?_, ?_, ?_, ?_, ?_⟩
      · rw [h1, hpool]; exact hfree i hmem
      · intro j e he; rw [hpool]; exact he
      · intro j e he; rw [hpool] at he; exact hids j e he
      · intro j hj
        rw [hflr] at hj
        rw [h1, hpool]
        have hji : j ≠ i := fun h => hndc.1 (h ▸ hj)
        exact ⟨hji, hfree j (by rw [hfl]; exact List.mem_cons_of_mem i hj)⟩
      · rw [hflr]; exact hndc.2
      · left; rw [h1]; exact List.mem_cons_self i rest
      · intro _; exact hpool
  | [] =>
      have hl : (allocate d).1 = d.pool.length := by simp [allocate, hfl]
      have hpool : (allocate d).2.pool = d.pool ++ growSlots d.pool.length d.growth := by
        simp [allocate, hfl]
      have hflr : (allocate d).2.freeList =
          (List.range (d.growth - 1)).map (fun k => d.pool.length + 1 + k) := by
        simp [allocate, hfl]
      have hidx2 : (allocate d).2.index = d.index := by simp [allocate, hfl]
      have hg2 : (allocate d).2.growth = d.growth := by simp [allocate, hfl]
      have happ : ∀ k, (allocate d).2.pool[d.pool.length + k]? =
          if k < d.growth
          then some { id := d.pool.length + k + 1, state := EntryState.free } else none := by
        intro k
        rw [hpool, List.getElem?_append_right (Nat.le_add_right _ k),
            Nat.add_sub_cancel_left, growSlots_getElem]
      refine ⟨hidx2, hg2, ?_, ?_, ?_, ?_, ?_, ?_, ?_⟩
      · refine ⟨{ id := d.pool.length + 1, state := EntryState.free }, ?_, rfl⟩
        rw [hl]
        have h0 := happ 0
        rw [Nat.add_zero] at h0
        rw [h0, if_pos (show 0 < d.growth from hg)]
      · intro j e he
        have hlt : j < d.pool.length := (List.getElem?_eq_some.mp he).1
        rw [hpool, List.getElem?_append_left hlt]
        exact he
      · intro j e he
        rw [hpool] at he
        rcases Nat.lt_or_ge j d.pool.length with hlt | hge
        · rw [List.getElem?_append_left hlt] at he
          exact hids j e he
        · rw [List.getElem?_append_right hge, growSlots_getElem] at he
          split at he
          · cases he
            show d.pool.length + (j - d.pool.length) + 1 = j + 1
            omega
          · cases he
      · intro j hj
        rw [hflr] at hj
        have hj2 : ∃ k, k < d.growth - 1 ∧ d.pool.length + 1 + k = j := by
          simpa using hj
        obtain ⟨k, hk, rfl⟩ := hj2
        constructor
        · rw [hl]; omega
        · have h1k : 1 + k < d.growth := by omega
          have hk2 := happ (1 + k)
          rw [if_pos h1k] at hk2
          rw [← Nat.add_assoc] at hk2
          exact ⟨_, hk2, rfl⟩
      · rw [hflr]
        exact (List.nodup_range _).map (fun a b h => by omega)
      · right; exact hl
      · intro h; exact absurd rfl h

end BGP

namespace BGP

/-- Slots the index points to are never the slot allocate returns. -/
theorem indexed_ne_allocated (d : Directory) (hInv : Inv d) :
    ∀ a j : Nat, d.index a = some j → j ≠ (allocate d).1 := by
  obtain ⟨hidx1, hg1, hfe, hpres, hids1, hfl1, hnd1, hsrc, hstay⟩ := allocate_spec d hInv
  obtain ⟨hg, hids, hidx, hinj, hfree, hnd⟩ := hInv
  intro a j hj hji
  obtain ⟨e, p2, st, he, hst⟩ := hidx a j hj
  rcases hsrc with hmem | hlen
  · obtain ⟨e2, he2, he2f⟩ := hfree _ hmem
    rw [hji, he2] at he
    cases he
    rw [hst] at he2f
    cases he2f
  · rw [hji, hlen] at he
    rw [List.getElem?_eq_none (Nat.le_refl _)] at he
    cases he

/-- What a successful register guarantees on an invariant-satisfying
directory whose index does not hold the address: the returned value is
the PeerId of the allocated slot, which now maps to an InUse entry for
peer and address; the invariant is preserved, all other index entries,
slots, growth are untouched, the slot came from the free list or is the
first fresh one, a non-empty free list means no pool growth, and seek
now answers the new peer exactly at the registered address. -/
theorem register_ok (p : Peer) (su : Nat) (d : Directory) (hInv : Inv d)
    (hsu : d.index su = none) :
    ∃ i d2, bgp_peer_index_register p su d = Except.ok (i + 1, d2) ∧
      Inv d2 ∧
      d2.index su = some i ∧
      (∀ a : Nat, a ≠ su → d2.index a = d.index a) ∧
      (∃ e, d2.pool[i]? = some e ∧ e.id = i + 1 ∧ e.state = EntryState.inUse p su none) ∧
      (∀ (j : Nat) (e : Entry), j ≠ i → d.pool[j]? = some e → d2.pool[j]? = some e) ∧
      (i ∈ d.freeList ∨ i = d.pool.length) ∧
      d2.growth = d.growth ∧
      (d.freeList ≠ [] → d2.pool.length = d.pool.length) ∧
      (∀ a : Nat, bgp_peer_index_seek a d2 =
        if a = su then some p else bgp_peer_index_seek a d) := by
  obtain ⟨hidx1, hg1, ⟨e0, he0, he0f⟩, hpres, hids1, hfl1, hnd1, hsrc, hstay⟩ :=
    allocate_spec d hInv
  have hnoti := indexed_ne_allocated d hInv
  obtain ⟨hg, hids, hidx, hinj, hfree, hnd⟩ := hInv
  have hid0 : e0.id = (allocate d).1 + 1 := hids1 _ e0 he0
  have hiv : (allocate d).1 < (allocate d).2.pool.length := by
    rcases List.getElem?_eq_some.mp he0 with ⟨h, _⟩
    exact h
  refine ⟨(allocate d).1,
    { pool := (allocate d).2.pool.set (allocate d).1
        { e0 with state := EntryState.inUse p su none },
      index := fun a => if a = su then some (allocate d).1 else (allocate d).2.index a,
      freeList := (allocate d).2.freeList,
      growth := (allocate d).2.growth }, ?_, ?_, ?_, ?_, ?_, ?_, ?_, ?_, ?_, ?_⟩
  · rw [← hid0]
    simp only [bgp_peer_index_register, hsu, he0]
  · refine ⟨by rw [hg1]; exact hg, ?_, ?_, ?_, ?_, ?_⟩
    · intro j e he
      rcases eq_or_ne j (allocate d).1 with rfl | hne
      · rw [List.getElem?_set_self hiv] at he
        cases he
        exact hid0
      · rw [List.getElem?_set_ne (Ne.symm hne)] at he
        exact hids1 j e he
    · intro a j hj
      simp only [] at hj
      rcases eq_or_ne a su with rfl | hne
      · rw [if_pos rfl] at hj
        cases hj
        exact ⟨_, p, none, List.getElem?_set_self hiv, rfl⟩
      · rw [if_neg hne, hidx1] at hj
        obtain ⟨e, p2, st, he, hst⟩ := hidx a j hj
        have hji : j ≠ (allocate d).1 := hnoti a j hj
        refine ⟨e, p2, st, ?_, hst⟩
        rw [List.getElem?_set_ne (Ne.symm hji)]
        exact hpres j e he
    · intro a b j ha hb
      simp only [] at ha hb
      by_cases hna : a = su
      · by_cases hnb : b = su
        · rw [hna, hnb]
        · rw [if_pos hna] at ha
          rw [if_neg hnb, hidx1] at hb
          cases ha
          exact absurd rfl (hnoti b _ hb)
      · by_cases hnb : b = su
        · rw [if_neg hna, hidx1] at ha
          rw [if_pos hnb] at hb
          cases hb
          exact absurd rfl (hnoti a _ ha)
        · rw [if_neg hna, hidx1] at ha
          rw [if_neg hnb, hidx1] at hb
          exact hinj a b j ha hb
    · intro j hj
      simp only [] at hj
      obtain ⟨hji, e, he, hef⟩ := hfl1 j hj
      refine ⟨e, ?_, hef⟩
      rw [List.getElem?_set_ne (Ne.symm hji)]
      exact he
    · exact hnd1
  · simp
  · intro a ha
    simp only [if_neg ha]
    rw [hidx1]
  · exact ⟨_, List.getElem?_set_self hiv, hid0, rfl⟩
  · intro j e hji he
    rw [List.getElem?_set_ne (Ne.symm hji)]
    exact hpres j e he
  · exact hsrc
  · exact hg1
  · intro h
    simp only [List.length_set]
    rw [hstay h]
  · intro a
    rcases eq_or_ne a su with rfl | hne
    · rw [if_pos rfl]
      simp [bgp_peer_index_seek, List.getElem?_set_self hiv]
    · rw [if_neg hne]
      cases hdi : d.index a with
      | none =>
          simp [bgp_peer_index_seek, hne, hidx1, hdi]
      | some j =>
          have hji : j ≠ (allocate d).1 := hnoti a j hdi
          obtain ⟨e, p2, st, he, hst⟩ := hidx a j hdi
          simp [bgp_peer_index_seek, hne, hidx1, hdi,
                List.getElem?_set_ne (Ne.symm hji), hpres j e he, he, hst]

end BGP

namespace BGP

/-- What a successful deregister guarantees: the address leaves the
index, the slot goes Free and onto the front of the free list, nothing
else moves, the invariant is preserved, and seek now answers none
exactly at the deregistered address. -/
theorem deregister_ok (peer : Peer) (su : Nat) (d : Directory) (i : Nat) (e : Entry)
    (st : Option StagedConnection) (hInv : Inv d) (hidxsu : d.index su = some i)
    (he : d.pool[i]? = some e) (hst : e.state = EntryState.inUse peer su st) :
    ∃ d2, bgp_peer_index_deregister peer su d = Except.ok d2 ∧
      Inv d2 ∧
      d2.index su = none ∧
      (∀ a : Nat, a ≠ su → d2.index a = d.index a) ∧
      d2.freeList = i :: d.freeList ∧
      d2.pool.length = d.pool.length ∧
      d2.growth = d.growth ∧
      (d2.pool[i]? = some { e with state := EntryState.free }) ∧
      (∀ (j : Nat), j ≠ i → d2.pool[j]? = d.pool[j]?) ∧
      (∀ a : Nat, bgp_peer_index_seek a d2 =
        if a = su then none else bgp_peer_index_seek a d) := by
  obtain ⟨hg, hids, hidx, hinj, hfree, hnd⟩ := hInv
  have hil : i < d.pool.length := by
    rcases List.getElem?_eq_some.mp he with ⟨h, _⟩
    exact h
  have hnotfree : i ∉ d.freeList := by
    intro hmem
    obtain ⟨e2, he2, hf2⟩ := hfree i hmem
    rw [he] at he2
    cases he2
    rw [hst] at hf2
    cases hf2
  have hset : setEntryState d.pool i EntryState.free =
      d.pool.set i { e with state := EntryState.free } := by
    simp only [setEntryState, he]
  have hji2 : ∀ a j : Nat, a ≠ su → d.index a = some j → j ≠ i := by
    intro a j ha hj hji
    exact ha (hinj a su i (hji ▸ hj) hidxsu)
  refine ⟨{ pool := setEntryState d.pool i EntryState.free,
            index := fun a => if a = su then none else d.index a,
            freeList := i :: d.freeList,
            growth := d.growth }, ?_, ?_, ?_, ?_, ?_, ?_, ?_, ?_, ?_, ?_⟩
  · simp [bgp_peer_index_deregister, hidxsu, he, hst]
  · refine ⟨hg, ?_, ?_, ?_, ?_, ?_⟩
    · intro j e2 he2
      simp only [hset] at he2
      rcases eq_or_ne j i with rfl | hne
      · rw [List.getElem?_set_self hil] at he2
        cases he2
        exact hids j e he
      · rw [List.getElem?_set_ne (Ne.symm hne)] at he2
        exact hids j e2 he2
    · intro a j hj
      simp only [] at hj
      by_cases ha : a = su
      · rw [if_pos ha] at hj
        cases hj
      · rw [if_neg ha] at hj
        obtain ⟨e2, p2, st2, he2, hst2⟩ := hidx a j hj
        refine ⟨e2, p2, st2, ?_, hst2⟩
        simp only [hset]
        rw [List.getElem?_set_ne (Ne.symm (hji2 a j ha hj))]
        exact he2
    · intro a b j ha hb
      simp only [] at ha hb
      by_cases hna : a = su
      · rw [if_pos hna] at ha
        cases ha
      · by_cases hnb : b = su
        · rw [if_pos hnb] at hb
          cases hb
        · rw [if_neg hna] at ha
          rw [if_neg hnb] at hb
          exact hinj a b j ha hb
    · intro j hj
      simp only [hset]
      rcases List.mem_cons.mp hj with rfl | hmem
      · exact ⟨_, List.getElem?_set_self hil, rfl⟩
      · obtain ⟨e2, he2, hf2⟩ := hfree j hmem
        have hji : j ≠ i := fun h => hnotfree (h ▸ hmem)
        refine ⟨e2, ?_, hf2⟩
        rw [List.getElem?_set_ne (Ne.symm hji)]
        exact he2
    · exact List.nodup_cons.mpr ⟨hnotfree, hnd⟩
  · simp
  · intro a ha
    simp [ha]
  · rfl
  · simp [hset]
  · rfl
  · simp only [hset]
    exact List.getElem?_set_self hil
  · intro j hj
    simp only [hset]
    exact List.getElem?_set_ne (Ne.symm hj)
  · intro a
    by_cases ha : a = su
    · rw [if_pos ha]
      simp [bgp_peer_index_seek, ha]
    · rw [if_neg ha]
      cases hdi : d.index a with
      | none => simp [bgp_peer_index_seek, ha, hdi]
      | some j =>
          have hji : j ≠ i := hji2 a j ha hdi
          simp [bgp_peer_index_seek, ha, hdi, hset, List.getElem?_set_ne (Ne.symm hji)]

/-- register fails (fatally) exactly when the address is already
indexed. -/
theorem register_error_iff (p : Peer) (su : Nat) (d : Directory) (hInv : Inv d) :
    bgp_peer_index_register p su d = Except.error () ↔ ∃ i, d.index su = some i := by
  constructor
  · intro h
    cases hdi : d.index su with
    | some i => exact ⟨i, rfl⟩
    | none =>
        obtain ⟨i, d2, hreg, _⟩ := register_ok p su d hInv hdi
        rw [hreg] at h
        cases h
  · rintro ⟨i, hi⟩
    simp [bgp_peer_index_register, hi]

/-- deregister fails (fatally) exactly when the address does not map to
an InUse entry recording this very peer. -/
theorem deregister_error_iff (peer : Peer) (su : Nat) (d : Directory) (hInv : Inv d) :
    bgp_peer_index_deregister peer su d = Except.error () ↔
      ¬∃ i e st, d.index su = some i ∧ d.pool[i]? = some e ∧
        e.state = EntryState.inUse peer su st := by
  constructor
  · intro h hex
    obtain ⟨i, e, st, hi, he, hst⟩ := hex
    obtain ⟨d2, hdereg, _⟩ := deregister_ok peer su d i e st hInv hi he hst
    rw [hdereg] at h
    cases h
  · intro hnex
    cases hdi : d.index su with
    | none => simp [bgp_peer_index_deregister, hdi]
    | some i =>
        obtain ⟨e, p2, st, he, hst⟩ := hInv.2.2.1 su i hdi
        have hp : p2 ≠ peer := fun h => hnex ⟨i, e, st, hdi, he, h ▸ hst⟩
        simp [bgp_peer_index_deregister, hdi, he, hst, hp]

/-- seek_accept on an unknown or administratively disabled address:
found is false and the directory is returned unchanged. -/
theorem seek_accept_not_found (su c t : Nat) (d : Directory)
    (h : d.index su = none ∨ ∃ i e p a st, d.index su = some i ∧ d.pool[i]? = some e ∧
        e.state = EntryState.inUse p a st ∧ p.enabled = false) :
    bgp_peer_index_seek_accept su c t d = ((none, false), d) := by
  rcases h with hn | ⟨i, e, p, a, st, hi, he, hst, hp⟩
  · simp [bgp_peer_index_seek_accept, hn]
  · simp [bgp_peer_index_seek_accept, hi, he, hst, hp]

end BGP

namespace BGP

/-- seek_accept on a present, enabled entry: found is true with the
connection handle, the staged connection of that entry is replaced by
the new handle and deadline, and nothing else changes (the invariant is
preserved and seek is untouched). -/
theorem seek_accept_found (su c t : Nat) (d : Directory) (i : Nat) (e : Entry) (p : Peer)
    (a : Nat) (st : Option StagedConnection) (hInv : Inv d) (hi : d.index su = some i)
    (he : d.pool[i]? = some e) (hst : e.state = EntryState.inUse p a st)
    (hp : p.enabled = true) :
    ∃ d2, bgp_peer_index_seek_accept su c t d = ((some c, true), d2) ∧
      Inv d2 ∧
      d2.index = d.index ∧
      d2.freeList = d.freeList ∧
      d2.growth = d.growth ∧
      d2.pool[i]? = some { e with
        state := EntryState.inUse p a (some { handle := c, deadline := t }) } ∧
      (∀ j : Nat, j ≠ i → d2.pool[j]? = d.pool[j]?) ∧
      bgp_peer_index_seek_entry su d2 = some { e with
        state := EntryState.inUse p a (some { handle := c, deadline := t }) } ∧
      (∀ b : Nat, bgp_peer_index_seek b d2 = bgp_peer_index_seek b d) := by
  obtain ⟨hg, hids, hidx, hinj, hfree, hnd⟩ := hInv
  have hil : i < d.pool.length := by
    rcases List.getElem?_eq_some.mp he with ⟨h, _⟩
    exact h
  have hasu : a = su := by
    obtain ⟨e2, p2, st2, he2, hst2⟩ := hidx su i hi
    rw [he] at he2
    cases he2
    rw [hst] at hst2
    cases hst2
    rfl
  refine ⟨{ d with pool := d.pool.set i { e with
    state := EntryState.inUse p a (some { handle := c, deadline := t }) } },
    ?_, ?_, rfl, rfl, rfl, ?_, ?_, ?_, ?_⟩
  · simp [bgp_peer_index_seek_accept, hi, he, hst, hp]
  · refine ⟨hg, ?_, ?_, hinj, ?_, hnd⟩
    · intro j e2 he2
      rcases eq_or_ne j i with rfl | hne
      · rw [List.getElem?_set_self hil] at he2
        cases he2
        exact hids j e he
      · rw [List.getElem?_set_ne (Ne.symm hne)] at he2
        exact hids j e2 he2
    · intro b j hj
      rcases eq_or_ne j i with rfl | hne
      · have hbsu : b = su := hinj b su j hj hi
        refine ⟨_, p, some { handle := c, deadline := t },
          List.getElem?_set_self hil, ?_⟩
        rw [hasu, hbsu]
      · obtain ⟨e2, p2, st2, he2, hst2⟩ := hidx b j hj
        refine ⟨e2, p2, st2, ?_, hst2⟩
        rw [List.getElem?_set_ne (Ne.symm hne)]
        exact he2
    · intro j hj
      obtain ⟨e2, he2, hf2⟩ := hfree j hj
      have hne : j ≠ i := by
        intro h
        rw [h, he] at he2
        cases he2
        rw [hst] at hf2
        cases hf2
      refine ⟨e2, ?_, hf2⟩
      rw [List.getElem?_set_ne (Ne.symm hne)]
      exact he2
  · exact List.getElem?_set_self hil
  · intro j hj
    exact List.getElem?_set_ne (Ne.symm hj)
  · simp [bgp_peer_index_seek_entry, hi, List.getElem?_set_self hil]
  · intro b
    cases hdb : d.index b with
    | none => simp [bgp_peer_index_seek, hdb]
    | some j =>
        rcases eq_or_ne j i with rfl | hne
        · simp [bgp_peer_index_seek, hdb, he, hst, List.getElem?_set_self hil]
        · simp [bgp_peer_index_seek, hdb, List.getElem?_set_ne (Ne.symm hne)]

/-- The state part of any seek_accept call preserves the invariant and
never changes what seek answers. -/
theorem seek_accept_state (su c t : Nat) (d : Directory) (hInv : Inv d) :
    Inv (bgp_peer_index_seek_accept su c t d).2 ∧
    (∀ b : Nat, bgp_peer_index_seek b (bgp_peer_index_seek_accept su c t d).2 =
      bgp_peer_index_seek b d) := by
  cases hdi : d.index su with
  | none =>
      rw [seek_accept_not_found su c t d (Or.inl hdi)]
      exact ⟨hInv, fun b => rfl⟩
  | some i =>
      obtain ⟨e, p, st, he, hst⟩ := hInv.2.2.1 su i hdi
      cases hp : p.enabled with
      | false =>
          rw [seek_accept_not_found su c t d (Or.inr ⟨i, e, p, su, st, hdi, he, hst, hp⟩)]
          exact ⟨hInv, fun b => rfl⟩
      | true =>
          obtain ⟨d2, hacc, hinv2, _, _, _, _, _, _, hseek⟩ :=
            seek_accept_found su c t d i e p su st hInv hdi he hst hp
          rw [hacc]
          exact ⟨hinv2, hseek⟩

/-- Any successful directory call preserves the invariant and changes
seek according to the registration history view. -/
theorem stepOp_ok (d : Directory) (op : DirOp) (d1 : Directory) (hInv : Inv d)
    (h : stepOp d op = Except.ok d1) :
    Inv d1 ∧ (∀ a : Nat, bgp_peer_index_seek a d1 =
      viewStep a (bgp_peer_index_seek a d) op) := by
  cases op with
  | reg p su =>
      cases hdi : d.index su with
      | some i =>
          have : bgp_peer_index_register p su d = Except.error () := by
            simp [bgp_peer_index_register, hdi]
          rw [stepOp, this] at h
          cases h
      | none =>
          obtain ⟨i, d2, hreg, hinv2, _, _, _, _, _, _, _, hseek⟩ :=
            register_ok p su d hInv hdi
          rw [stepOp, hreg] at h
          cases h
          refine ⟨hinv2, ?_⟩
          intro a
          rw [hseek a, viewStep]
          by_cases ha : a = su
          · rw [if_pos ha, if_pos (ha ▸ rfl)]
          · rw [if_neg ha, if_neg (fun hh => ha hh.symm)]
  | dereg p su =>
      cases hdi : d.index su with
      | none =>
          rw [stepOp, bgp_peer_index_deregister, hdi] at h
          cases h
      | some i =>
          obtain ⟨e, p2, st, he, hst⟩ := hInv.2.2.1 su i hdi
          rcases eq_or_ne p2 p with rfl | hne
          · obtain ⟨d2, hder, hinv2, _, _, _, _, _, _, _, hseek⟩ :=
              deregister_ok p2 su d i e st hInv hdi he hst
            rw [stepOp, hder] at h
            cases h
            refine ⟨hinv2, ?_⟩
            intro a
            rw [hseek a, viewStep]
            by_cases ha : a = su
            · rw [if_pos ha, if_pos (ha ▸ rfl)]
            · rw [if_neg ha, if_neg (fun hh => ha hh.symm)]
          · have : bgp_peer_index_deregister p su d = Except.error () := by
              simp [bgp_peer_index_deregister, hdi, he, hst, hne]
            rw [stepOp, this] at h
            cases h
  | look su =>
      rw [stepOp] at h
      cases h
      exact ⟨hInv, fun a => rfl⟩
  | lookEntry su =>
      rw [stepOp] at h
      cases h
      exact ⟨hInv, fun a => rfl⟩
  | accept su c t =>
      rw [stepOp] at h
      cases h
      obtain ⟨hinv2, hseek⟩ := seek_accept_state su c t d hInv
      exact ⟨hinv2, fun a => hseek a⟩

/-- Running a successful trace preserves the invariant and seek folds
the registration history view over the trace. -/
theorem runTrace_ok (tr : List DirOp) : ∀ d d2 : Directory, Inv d →
    runTrace d tr = Except.ok d2 →
    Inv d2 ∧ (∀ a : Nat, bgp_peer_index_seek a d2 =
      tr.foldl (viewStep a) (bgp_peer_index_seek a d)) := by
  induction tr with
  | nil =>
      intro d d2 hInv h
      rw [runTrace] at h
      cases h
      exact ⟨hInv, fun a => rfl⟩
  | cons op rest ih =>
      intro d d2 hInv h
      rw [runTrace] at h
      cases hop : stepOp d op with
      | error e => rw [hop] at h; cases h
      | ok d1 =>
          rw [hop] at h
          obtain ⟨hinv1, hseek1⟩ := stepOp_ok d op d1 hInv hop
          obtain ⟨hinv2, hseek2⟩ := ih d1 d2 hinv1 h
          refine ⟨hinv2, ?_⟩
          intro a
          rw [hseek2 a, List.foldl_cons, hseek1 a]

/-- seek finds nothing in the initial directory. -/
theorem seek_init (n g a : Nat) : bgp_peer_index_seek a (bgp_peer_index_init n g) = none := by
  simp [bgp_peer_index_seek, bgp_peer_index_init]

/-- Every reachable directory satisfies the invariant. -/
theorem reachable_inv (d : Directory) (h : Reachable d) : Inv d := by
  obtain ⟨n, g, tr, hg, hrun⟩ := h
  exact (runTrace_ok tr (bgp_peer_index_init n g) d (inv_init n g hg) hrun).1

end BGP

namespace BGP

/-- wdAB is a reachable directory state. -/
theorem wdAB_reachable : Reachable wdAB :=
  ⟨2, 1, wtrAB, Nat.le_refl 1, rfl⟩

/-- C1: for every sequence of register/deregister operations (over any
addresses; in particular distinct ones) that completes without a fatal
error, seek answers, per address, the peer most recently registered for
that address, and none after a matching deregister -- the fold of the
registration history view over the trace. -/
theorem claim_c1_seek_follows_history (n g : Nat) (tr : List DirOp) (d : Directory)
    (a : Nat) (hg : 1 ≤ g) (hrun : runTrace (bgp_peer_index_init n g) tr = Except.ok d) :
    bgp_peer_index_seek a d = tr.foldl (viewStep a) none := by
  have h := runTrace_ok tr (bgp_peer_index_init n g) d (inv_init n g hg) hrun
  rw [h.2 a, seek_init]

/-- Witness for C1 on a concrete trace: register, accept-stage,
deregister, re-register. -/
theorem claim_c1_witness :
    1 ≤ 1 ∧ runTrace (bgp_peer_index_init 2 1) wtr1 = Except.ok wd1 ∧
    bgp_peer_index_seek 10 wd1 = wtr1.foldl (viewStep 10) none :=
  ⟨Nat.le_refl 1, rfl, claim_c1_seek_follows_history 2 1 wtr1 wd1 10 (Nat.le_refl 1) rfl⟩

/-- C2: seek_accept on an address with no InUse entry (seek finds
nothing) or whose InUse entry is administratively disabled answers
found = false, returns no handle, and leaves the directory completely
unchanged -- no entry is created. -/
theorem claim_c2_seek_accept_rejects (d : Directory) (su c t : Nat)
    (h : bgp_peer_index_seek su d = none ∨
      ∃ i e p a st, d.index su = some i ∧ d.pool[i]? = some e ∧
        e.state = EntryState.inUse p a st ∧ p.enabled = false) :
    bgp_peer_index_seek_accept su c t d = ((none, false), d) := by
  rcases h with hn | ⟨i, e, p, a, st, hi, he, hst, hp⟩
  · cases hdi : d.index su with
    | none => simp [bgp_peer_index_seek_accept, hdi]
    | some i =>
        cases hpe : d.pool[i]? with
        | none => simp [bgp_peer_index_seek_accept, hdi, hpe]
        | some e =>
            cases hse : e.state with
            | free => simp [bgp_peer_index_seek_accept, hdi, hpe, hse]
            | inUse p a st =>
                simp [bgp_peer_index_seek, hdi, hpe, hse] at hn
  · exact seek_accept_not_found su c t d (Or.inr ⟨i, e, p, a, st, hi, he, hst, hp⟩)

/-- Witness for C2: the disabled peer at address 20 of wdAB is
rejected with no state change. -/
theorem claim_c2_witness :
    bgp_peer_index_seek_accept 20 7 99 wdAB = ((none, false), wdAB) :=
  claim_c2_seek_accept_rejects wdAB 20 7 99
    (Or.inr ⟨1, { id := 2, state := EntryState.inUse { pid := 2, enabled := false } 20 none },
      { pid := 2, enabled := false }, 20, none, rfl, rfl, rfl, rfl⟩)

/-- C3: seek_accept on an address whose InUse entry is enabled answers
found = true with the connection handle, and records the handle and
admission deadline as that entry staged connection, replacing whatever
was staged before; nothing else in the directory changes. -/
theorem claim_c3_seek_accept_stages (d : Directory) (su c t i : Nat) (e : Entry)
    (p : Peer) (a : Nat) (st : Option StagedConnection) (hreach : Reachable d)
    (hi : d.index su = some i) (he : d.pool[i]? = some e)
    (hst : e.state = EntryState.inUse p a st) (hp : p.enabled = true) :
    ∃ d2, bgp_peer_index_seek_accept su c t d = ((some c, true), d2) ∧
      bgp_peer_index_seek_entry su d2 = some { e with
        state := EntryState.inUse p a (some { handle := c, deadline := t }) } ∧
      (∀ j : Nat, j ≠ i → d2.pool[j]? = d.pool[j]?) ∧
      d2.index = d.index ∧ d2.freeList = d.freeList ∧ d2.growth = d.growth := by
  obtain ⟨d2, hacc, _, hix, hfl, hgr, _, hoth, hent, _⟩ :=
    seek_accept_found su c t d i e p a st (reachable_inv d hreach) hi he hst hp
  exact ⟨d2, hacc, hent, hoth, hix, hfl, hgr⟩

/-- Witness for C3: the enabled peer at address 10 of wdAB gets the
connection staged. -/
theorem claim_c3_witness :
    ∃ d2, bgp_peer_index_seek_accept 10 7 99 wdAB = ((some 7, true), d2) ∧
      bgp_peer_index_seek_entry 10 d2 =
        some { id := 1,
               state := EntryState.inUse { pid := 1, enabled := true } 10
                 (some { handle := 7, deadline := 99 }) } ∧
      (∀ j : Nat, j ≠ 0 → d2.pool[j]? = wdAB.pool[j]?) ∧
      d2.index = wdAB.index ∧ d2.freeList = wdAB.freeList ∧ d2.growth = wdAB.growth :=
  claim_c3_seek_accept_stages wdAB 10 7 99 0
    { id := 1, state := EntryState.inUse { pid := 1, enabled := true } 10 none }
    { pid := 1, enabled := true } 10 none wdAB_reachable rfl rfl rfl rfl

/-- C4: register on an address not currently mapped succeeds and
returns exactly the PeerId of the slot it allocated for the peer: the
address now maps to a slot holding an InUse entry for this peer whose
id is the returned value. -/
theorem claim_c4_register_returns_new_id (d : Directory) (p : Peer) (su : Nat)
    (hreach : Reachable d) (hsu : d.index su = none) :
    ∃ i d2, bgp_peer_index_register p su d = Except.ok (i + 1, d2) ∧
      d2.index su = some i ∧
      ∃ e, d2.pool[i]? = some e ∧ e.id = i + 1 ∧ e.state = EntryState.inUse p su none := by
  obtain ⟨i, d2, hreg, _, hix, _, hee, _⟩ :=
    register_ok p su d (reachable_inv d hreach) hsu
  exact ⟨i, d2, hreg, hix, hee⟩

/-- Witness for C4: registering address 30 on wdAB allocates slot 2 and
returns PeerId 3. -/
theorem claim_c4_witness :
    wdAB.index 30 = none ∧
    (∃ i d2, bgp_peer_index_register { pid := 5, enabled := true } 30 wdAB =
        Except.ok (i + 1, d2) ∧
      d2.index 30 = some i ∧
      ∃ e, d2.pool[i]? = some e ∧ e.id = i + 1 ∧
        e.state = EntryState.inUse { pid := 5, enabled := true } 30 none) :=
  ⟨rfl, claim_c4_register_returns_new_id wdAB { pid := 5, enabled := true } 30
    wdAB_reachable rfl⟩

/-- C5: PeerId 0 is reserved: in every reachable directory state no
InUse entry carries id 0, and a successful register never returns
PeerId 0. -/
theorem claim_c5_peer_id_zero_reserved (d : Directory) (hreach : Reachable d) :
    (∀ (i : Nat) (e : Entry) (p : Peer) (a : Nat) (st : Option StagedConnection),
      d.pool[i]? = some e → e.state = EntryState.inUse p a st → e.id ≠ 0) ∧
    (∀ (p : Peer) (su id : Nat) (d2 : Directory),
      bgp_peer_index_register p su d = Except.ok (id, d2) → id ≠ 0) := by
  have hInv := reachable_inv d hreach
  constructor
  · intro i e p a st he _
    rw [hInv.2.1 i e he]
    exact Nat.succ_ne_zero i
  · intro p su id d2 hreg
    cases hdi : d.index su with
    | some j =>
        have : bgp_peer_index_register p su d = Except.error () := by
          simp [bgp_peer_index_register, hdi]
        rw [this] at hreg
        cases hreg
    | none =>
        obtain ⟨i, d3, hreg2, _⟩ := register_ok p su d hInv hdi
        rw [hreg2] at hreg
        cases hreg
        exact Nat.succ_ne_zero i

/-- Witness for C5: the register that grows wdAB returns PeerId 3,
which is not 0. -/
theorem claim_c5_witness :
    bgp_peer_index_register { pid := 9, enabled := true } 33 wdAB =
      Except.ok (3, wdC5) ∧ (3 : Nat) ≠ 0 :=
  ⟨rfl, (claim_c5_peer_id_zero_reserved wdAB wdAB_reachable).2
    { pid := 9, enabled := true } 33 3 wdC5 rfl⟩

/-- C6: in every reachable state the PeerIds of InUse entries are
pairwise distinct (equal ids force the same slot); a successful
register draws its slot only from the free list or from fresh pool
growth; and a successful deregister releases its slot onto the free
list -- so a released id is only reassigned after its slot has passed
back through the free list. -/
theorem claim_c6_ids_distinct_until_freed (d : Directory) (hreach : Reachable d) :
    (∀ (i j : Nat) (e1 e2 : Entry) (q1 q2 : Peer) (a1 a2 : Nat)
       (s1 s2 : Option StagedConnection),
      d.pool[i]? = some e1 → d.pool[j]? = some e2 →
      e1.state = EntryState.inUse q1 a1 s1 → e2.state = EntryState.inUse q2 a2 s2 →
      e1.id = e2.id → i = j) ∧
    (∀ (p : Peer) (su id : Nat) (d2 : Directory),
      bgp_peer_index_register p su d = Except.ok (id, d2) →
      ∃ i, id = i + 1 ∧ (i ∈ d.freeList ∨ i = d.pool.length)) ∧
    (∀ (p : Peer) (su : Nat) (d2 : Directory),
      bgp_peer_index_deregister p su d = Except.ok d2 →
      ∃ i, d.index su = some i ∧ d2.freeList = i :: d.freeList) := by
  have hInv := reachable_inv d hreach
  refine ⟨?_, ?_, ?_⟩
  · intro i j e1 e2 q1 q2 a1 a2 s1 s2 h1 h2 _ _ hid
    have hi1 := hInv.2.1 i e1 h1
    have hi2 := hInv.2.1 j e2 h2
    omega
  · intro p su id d2 hreg
    cases hdi : d.index su with
    | some j =>
        have : bgp_peer_index_register p su d = Except.error () := by
          simp [bgp_peer_index_register, hdi]
        rw [this] at hreg
        cases hreg
    | none =>
        obtain ⟨i, d3, hreg2, _, _, _, _, _, hsrc, _⟩ := register_ok p su d hInv hdi
        rw [hreg2] at hreg
        cases hreg
        exact ⟨i, rfl, hsrc⟩
  · intro p su d2 hder
    cases hdi : d.index su with
    | none =>
        rw [bgp_peer_index_deregister, hdi] at hder
        cases hder
    | some i =>
        obtain ⟨e, p2, st, he, hst⟩ := hInv.2.2.1 su i hdi
        rcases eq_or_ne p2 p with rfl | hne
        · obtain ⟨d3, hder2, _, _, _, hfl, _⟩ :=
            deregister_ok p2 su d i e st hInv hdi he hst
          rw [hder2] at hder
          cases hder
          exact ⟨i, rfl, hfl⟩
        · have : bgp_peer_index_deregister p su d = Except.error () := by
            simp [bgp_peer_index_deregister, hdi, he, hst, hne]
          rw [this] at hder
          cases hder

/-- Witness for C6: the register that grows wdAB takes the first fresh
slot, and deregistering peer 1 releases slot 0 onto the free list. -/
theorem claim_c6_witness :
    (∃ i, (3 : Nat) = i + 1 ∧ (i ∈ wdAB.freeList ∨ i = wdAB.pool.length)) ∧
    (∃ i, wdAB.index 10 = some i ∧
      (okDir (bgp_peer_index_deregister { pid := 1, enabled := true } 10 wdAB)).freeList =
        i :: wdAB.freeList) :=
  ⟨(claim_c6_ids_distinct_until_freed wdAB wdAB_reachable).2.1
      { pid := 9, enabled := true } 33 3 wdC5 rfl,
   (claim_c6_ids_distinct_until_freed wdAB wdAB_reachable).2.2
      { pid := 1, enabled := true } 10
      (okDir (bgp_peer_index_deregister { pid := 1, enabled := true } 10 wdAB)) rfl⟩

/-- C7: round trip -- on any reachable state, register(p, A) for a
fresh address followed by deregister(p, A) succeeds, leaves seek(A)
none, and any subsequent register for a fresh address succeeds without
the pool growing (the freed slot is reusable). -/
theorem claim_c7_round_trip (d : Directory) (p : Peer) (su : Nat)
    (hreach : Reachable d) (hsu : d.index su = none) :
    ∃ id d1 d2, bgp_peer_index_register p su d = Except.ok (id, d1) ∧
      bgp_peer_index_deregister p su d1 = Except.ok d2 ∧
      bgp_peer_index_seek su d2 = none ∧
      (∀ (q : Peer) (b : Nat), d2.index b = none →
        ∃ r, bgp_peer_index_register q b d2 = Except.ok r ∧
          r.2.pool.length = d2.pool.length) := by
  have hInv := reachable_inv d hreach
  obtain ⟨i, d1, hreg, hInv1, hix1, _, ⟨e, he, _, hst⟩, _⟩ := register_ok p su d hInv hsu
  obtain ⟨d2, hder, hInv2, _, _, hfl2, _, _, _, _, hseek2⟩ :=
    deregister_ok p su d1 i e none hInv1 hix1 he hst
  refine ⟨i + 1, d1, d2, hreg, hder, ?_, ?_⟩
  · rw [hseek2 su, if_pos rfl]
  · intro q b hb
    obtain ⟨i2, d3, hreg3, _, _, _, _, _, _, _, hgrow, _⟩ := register_ok q b d2 hInv2 hb
    refine ⟨(i2 + 1, d3), hreg3, ?_⟩
    apply hgrow
    rw [hfl2]
    exact List.cons_ne_nil i d1.freeList

/-- Witness for C7 at address 30 on wdAB. -/
theorem claim_c7_witness :
    wdAB.index 30 = none ∧
    (∃ id d1 d2, bgp_peer_index_register { pid := 5, enabled := true } 30 wdAB =
        Except.ok (id, d1) ∧
      bgp_peer_index_deregister { pid := 5, enabled := true } 30 d1 = Except.ok d2 ∧
      bgp_peer_index_seek 30 d2 = none ∧
      (∀ (q : Peer) (b : Nat), d2.index b = none →
        ∃ r, bgp_peer_index_register q b d2 = Except.ok r ∧
          r.2.pool.length = d2.pool.length)) :=
  ⟨rfl, claim_c7_round_trip wdAB { pid := 5, enabled := true } 30 wdAB_reachable rfl⟩

/-- C8: on every reachable state, register fails fatally exactly on a
live duplicate address and deregister fails fatally exactly on an
address/peer pair that does not match the recorded entry, while seek,
seek_entry and seek_accept calls always complete normally with
present/absent results. -/
theorem claim_c8_fatal_only_on_violation (d : Directory) (p : Peer) (su c t : Nat)
    (hreach : Reachable d) :
    (bgp_peer_index_register p su d = Except.error () ↔ ∃ i, d.index su = some i) ∧
    (bgp_peer_index_deregister p su d = Except.error () ↔
      ¬∃ i e st, d.index su = some i ∧ d.pool[i]? = some e ∧
        e.state = EntryState.inUse p su st) ∧
    stepOp d (DirOp.look su) = Except.ok d ∧
    stepOp d (DirOp.lookEntry su) = Except.ok d ∧
    stepOp d (DirOp.accept su c t) =
      Except.ok (bgp_peer_index_seek_accept su c t d).2 := by
  have hInv := reachable_inv d hreach
  exact ⟨register_error_iff p su d hInv, deregister_error_iff p su d hInv, rfl, rfl, rfl⟩

/-- Witness for C8 on wdAB: address 10 is live, so registering it again
is the fatal case, while deregistering the matching pair is not. -/
theorem claim_c8_witness :
    (bgp_peer_index_register { pid := 1, enabled := true } 10 wdAB = Except.error () ↔
      ∃ i, wdAB.index 10 = some i) ∧
    (bgp_peer_index_deregister { pid := 1, enabled := true } 10 wdAB = Except.error () ↔
      ¬∃ i e st, wdAB.index 10 = some i ∧ wdAB.pool[i]? = some e ∧
        e.state = EntryState.inUse { pid := 1, enabled := true } 10 st) ∧
    stepOp wdAB (DirOp.look 10) = Except.ok wdAB ∧
    stepOp wdAB (DirOp.lookEntry 10) = Except.ok wdAB ∧
    stepOp wdAB (DirOp.accept 10 7 99) =
      Except.ok (bgp_peer_index_seek_accept 10 7 99 wdAB).2 :=
  claim_c8_fatal_only_on_violation wdAB { pid := 1, enabled := true } 10 7 99 wdAB_reachable

end BGP

namespace Qlib

/-- A passed range check means the value is inside the table bounds and
is stored as given. -/
theorem checkRange_ok (v : QlibVar) (x y : Int) (h : checkRange v x = Except.ok y) :
    v.min ≤ x ∧ x ≤ v.max ∧ y = x := by
  rw [checkRange] at h
  split at h
  · cases h
  · cases h
    constructor
    · omega
    · constructor
      · omega
      · rfl

/-- A failed range check exits with code 1. -/
theorem checkRange_error (v : QlibVar) (x : Int) (c : Nat)
    (h : checkRange v x = Except.error c) : c = 1 := by
  rw [checkRange] at h
  split at h
  · cases h; rfl
  · cases h

/-- A stored probe lies inside the table bounds. -/
theorem probeVar_ok (v : QlibVar) (r : SysconfResult) (y : Int)
    (h : probeVar v r = Except.ok y) : v.min ≤ y ∧ y ≤ v.max := by
  rw [probeVar] at h
  split at h
  · split at h
    · obtain ⟨h1, h2, rfl⟩ := checkRange_ok v INT_MAX y h
      exact ⟨h1, h2⟩
    · cases h
  · obtain ⟨h1, h2, rfl⟩ := checkRange_ok v r.val y h
    exact ⟨h1, h2⟩

/-- A failed probe exits with code 1. -/
theorem probeVar_error (v : QlibVar) (r : SysconfResult) (c : Nat)
    (h : probeVar v r = Except.error c) : c = 1 := by
  rw [probeVar] at h
  split at h
  · split at h
    · exact checkRange_error v INT_MAX c h
    · cases h; rfl
  · exact checkRange_error v r.val c h

/-- C9: whenever qlib_init_first_stage returns instead of exiting, the
probed parameters respect their declared bounds (iov_max at least 16,
open_max at least 256, pagesize between 256 and (INT_MAX >> 1) + 1);
sysconf answering -1 with errno 0 is treated as the unlimited value
INT_MAX and then range-checked like any probe; -1 with a real errno,
or any out-of-range value, exits the process with code 1. -/
theorem claim_c9_first_stage_bounds :
    (∀ (env : Nat → SysconfResult) (s : QlibState), qlib_init_first_stage env = Except.ok s →
      16 ≤ s.qlib_iov_max ∧ s.qlib_iov_max ≤ INT_MAX ∧
      256 ≤ s.qlib_open_max ∧ s.qlib_open_max ≤ INT_MAX ∧
      256 ≤ s.qlib_pagesize ∧ s.qlib_pagesize ≤ INT_MAX / 2 + 1) ∧
    (∀ (env : Nat → SysconfResult) (c : Nat),
      qlib_init_first_stage env = Except.error c → c = 1) ∧
    (∀ (v : QlibVar) (r : SysconfResult), r.val = -1 → r.errno = 0 →
      probeVar v r = checkRange v INT_MAX) ∧
    (∀ (v : QlibVar) (r : SysconfResult), r.val = -1 → r.errno ≠ 0 →
      probeVar v r = Except.error 1) ∧
    (∀ (v : QlibVar) (r : SysconfResult), r.val ≠ -1 →
      (r.val < v.min ∨ v.max < r.val) → probeVar v r = Except.error 1) := by
  refine ⟨?_, ?_, ?_, ?_, ?_⟩
  · intro env s h
    rw [qlib_init_first_stage] at h
    cases h1 : probeVar qvar_iov_max (env 0) with
    | error c => rw [h1] at h; cases h
    | ok a =>
        rw [h1] at h
        cases h2 : probeVar qvar_open_max (env 1) with
        | error c => rw [h2] at h; cases h
        | ok b =>
            rw [h2] at h
            cases h3 : probeVar qvar_pagesize (env 2) with
            | error c => rw [h3] at h; cases h
            | ok cc =>
                rw [h3] at h
                cases h
                obtain ⟨ha1, ha2⟩ := probeVar_ok _ _ _ h1
                obtain ⟨hb1, hb2⟩ := probeVar_ok _ _ _ h2
                obtain ⟨hc1, hc2⟩ := probeVar_ok _ _ _ h3
                exact ⟨ha1, ha2, hb1, hb2, hc1, hc2⟩
  · intro env c h
    rw [qlib_init_first_stage] at h
    cases h1 : probeVar qvar_iov_max (env 0) with
    | error c1 =>
        rw [h1] at h
        cases h
        exact probeVar_error _ _ _ h1
    | ok a =>
        rw [h1] at h
        cases h2 : probeVar qvar_open_max (env 1) with
        | error c2 =>
            rw [h2] at h
            cases h
            exact probeVar_error _ _ _ h2
        | ok b =>
            rw [h2] at h
            cases h3 : probeVar qvar_pagesize (env 2) with
            | error c3 =>
                rw [h3] at h
                cases h
                exact probeVar_error _ _ _ h3
            | ok cc =>
                rw [h3] at h
                cases h
  · intro v r h1 h2
    rw [probeVar, if_pos h1, if_pos h2]
  · intro v r h1 h2
    rw [probeVar, if_pos h1, if_neg h2]
  · intro v r h1 h2
    rw [probeVar, if_neg h1, checkRange, if_pos h2]

/-- Witness for C9: all probes answering 1024 pass every bound. -/
theorem claim_c9_witness :
    qlib_init_first_stage envGood =
      Except.ok { qlib_iov_max := 1024, qlib_open_max := 1024, qlib_pagesize := 1024 } ∧
    (16 ≤ (1024 : Int) ∧ (1024 : Int) ≤ INT_MAX ∧
      256 ≤ (1024 : Int) ∧ (1024 : Int) ≤ INT_MAX ∧
      256 ≤ (1024 : Int) ∧ (1024 : Int) ≤ INT_MAX / 2 + 1) :=
  ⟨rfl, claim_c9_first_stage_bounds.1 envGood
    { qlib_iov_max := 1024, qlib_open_max := 1024, qlib_pagesize := 1024 } rfl⟩

end Qlib

namespace Vty

/-- uty_monitor_set preserves the monitor bookkeeping invariant. -/
theorem uty_monitor_set_inv (s : MonState) (id : Nat) (how : Bool) (hInv : MonInv s) :
    MonInv (uty_monitor_set s id how) := by
  obtain ⟨hc, hm, hnd, hz⟩ := hInv
  rw [uty_monitor_set]
  split
  · next hcond =>
      rw [Bool.and_eq_true] at hcond
      have hmon : (s.vios id).monitor = false := by
        have h2 := hcond.2
        simpa using h2
      have hnotmem : id ∉ s.mlist := by
        intro hmem
        rw [← hm id, hmon] at hmem
        cases hmem
      refine ⟨?_, ?_, ?_, rfl⟩
      · show ((s.monitor_count : Int) + 1).toNat = (s.mlist ++ [id]).length
        rw [hc, List.length_append]
        simp only [List.length_cons, List.length_nil]
        omega
      · intro j
        by_cases hj : j = id
        · subst hj
          simp [setVio, uty_monitor_update]
        · simp [setVio, uty_monitor_update, hj, hm j, List.mem_append]
      · show (s.mlist ++ [id]).Nodup
        refine List.Nodup.append hnd (List.nodup_singleton id) ?_
        intro x hx hx2
        rw [List.mem_singleton.mp hx2] at hx
        exact hnotmem hx
  · split
    · next hcond2 =>
        rw [Bool.and_eq_true] at hcond2
        have hmon : (s.vios id).monitor = true := hcond2.2
        have hmem : id ∈ s.mlist := (hm id).mp hmon
        refine ⟨?_, ?_, ?_, rfl⟩
        · show ((s.monitor_count : Int) + (-1)).toNat = (s.mlist.erase id).length
          rw [hc, List.length_erase_of_mem hmem]
          have hpos : 0 < s.mlist.length :=
            List.length_pos.mpr (List.ne_nil_of_mem hmem)
          omega
        · intro j
          by_cases hj : j = id
          · subst hj
            simp [setVio, uty_monitor_update, hnd.mem_erase_iff]
          · simp [setVio, uty_monitor_update, hj, hm j, hnd.mem_erase_iff]
        · show (s.mlist.erase id).Nodup
          exact hnd.erase id
    · refine ⟨?_, hm, hnd, rfl⟩
      show ((s.monitor_count : Int) + 0).toNat = s.mlist.length
      omega

/-- vty_monitor_set_level preserves the monitor bookkeeping
invariant. -/
theorem vty_monitor_set_level_inv (s : MonState) (id : Nat) (lvl : Int)
    (hInv : MonInv s) : MonInv (vty_monitor_set_level s id lvl) := by
  obtain ⟨hc, hm, hnd, hz⟩ := hInv
  rw [vty_monitor_set_level]
  split
  · refine ⟨?_, ?_, hnd, rfl⟩
    · show ((s.monitor_count : Int) + 0).toNat = s.mlist.length
      omega
    · intro j
      by_cases hj : j = id
      · subst hj
        simpa [setVio, uty_monitor_update] using hm j
      · simpa [setVio, uty_monitor_update, hj] using hm j
  · exact ⟨hc, hm, hnd, hz⟩

/-- The level scan of uty_monitor_update is the maximum of the listed
monitor levels (ZLOG_DISABLED when the list is empty). -/
theorem effLevel_eq_foldl_max (s : MonState) :
    effLevel s = s.mlist.foldl (fun lv v => max lv (s.vios v).maxlvl) ZLOG_DISABLED := by
  rw [effLevel]
  congr 1

/-- Setting on for a monitoring vio whose vout is a live VOUT_TERM
leaves list and count unchanged. -/
theorem set_on_monitoring_noop (s : MonState) (id : Nat)
    (hmon : (s.vios id).monitor = true) (hterm : (s.vios id).voutIsTerm = true)
    (hcease : (s.vios id).voutCeased = false) :
    (uty_monitor_set s id true).mlist = s.mlist ∧
    (uty_monitor_set s id true).monitor_count =
      ((s.monitor_count : Int) + 0).toNat := by
  have hhow : monHow s id true = true := by
    rw [monHow, hterm, hcease]
    rfl
  rw [uty_monitor_set, hhow, hmon]
  exact ⟨rfl, rfl⟩

/-- Setting off for a vio that is not monitoring leaves list and count
unchanged. -/
theorem set_off_not_monitoring_noop (s : MonState) (id : Nat)
    (hmon : (s.vios id).monitor = false) :
    (uty_monitor_set s id false).mlist = s.mlist ∧
    (uty_monitor_set s id false).monitor_count =
      ((s.monitor_count : Int) + 0).toNat := by
  have hhow : monHow s id false = false := by
    rw [monHow]
    split <;> rfl
  rw [uty_monitor_set, hhow, hmon]
  exact ⟨rfl, rfl⟩

end Vty

namespace Vty

/-- The healthy one-monitor state satisfies the invariant. -/
theorem goodState_inv : MonInv goodState := by
  refine ⟨rfl, ?_, ?_, ?_⟩
  · intro j
    by_cases hj : j = 0
    · subst hj
      simp [goodState, goodVio]
    · simp [goodState, cexOff, hj]
  · simp [goodState]
  · decide

/-- C10 counterexample: cexState is a consistent monitor state whose
vio 0 is already monitoring, yet uty_monitor_set(vio 0, on) changes the
list and the count -- because the vout of vio 0 carries vf_cease, the
call behaves as off and removes the monitor. -/
theorem claim_c10_counterexample :
    MonInv cexState ∧ (cexState.vios 0).monitor = true ∧
    (uty_monitor_set cexState 0 true).mlist ≠ cexState.mlist ∧
    (uty_monitor_set cexState 0 true).monitor_count ≠ cexState.monitor_count := by
  refine ⟨⟨rfl, ?_, ?_, ?_⟩, rfl, ?_, ?_⟩
  · intro j
    by_cases hj : j = 0
    · subst hj
      simp [cexState, cexVio]
    · simp [cexState, cexOff, hj]
  · simp [cexState]
  · decide
  · decide
  · decide

/-- C10 (amended): the monitor bookkeeping invariant -- monitor_count
equal to the length of vio_monitor_list and the level handed to
uzlog_set_monitor equal to the maximum maxlvl over the listed monitors
(ZLOG_DISABLED for an empty list) -- is preserved by every
uty_monitor_set and vty_monitor_set_level call; setting on for a vio
already monitoring whose base vout is a live (non-ceased) VOUT_TERM,
and setting off for a vio not monitoring, leave the list and the count
unchanged.  (Setting on for a monitoring vio whose vout has ceased is
forced to off and removes it -- see the counterexample.) -/
theorem claim_c10_monitor_bookkeeping :
    (∀ (s : MonState) (id : Nat) (how : Bool), MonInv s →
      MonInv (uty_monitor_set s id how)) ∧
    (∀ (s : MonState) (id : Nat) (lvl : Int), MonInv s →
      MonInv (vty_monitor_set_level s id lvl)) ∧
    (∀ s : MonState, effLevel s =
      s.mlist.foldl (fun lv v => max lv (s.vios v).maxlvl) ZLOG_DISABLED) ∧
    (∀ (s : MonState) (id : Nat), MonInv s → (s.vios id).monitor = true →
      (s.vios id).voutIsTerm = true → (s.vios id).voutCeased = false →
      (uty_monitor_set s id true).mlist = s.mlist ∧
      (uty_monitor_set s id true).monitor_count = s.monitor_count) ∧
    (∀ (s : MonState) (id : Nat), MonInv s → (s.vios id).monitor = false →
      (uty_monitor_set s id false).mlist = s.mlist ∧
      (uty_monitor_set s id false).monitor_count = s.monitor_count) := by
  refine ⟨uty_monitor_set_inv, vty_monitor_set_level_inv, effLevel_eq_foldl_max, ?_, ?_⟩
  · intro s id _hInv hmon hterm hcease
    obtain ⟨h1, h2⟩ := set_on_monitoring_noop s id hmon hterm hcease
    refine ⟨h1, ?_⟩
    rw [h2]
    omega
  · intro s id _hInv hmon
    obtain ⟨h1, h2⟩ := set_off_not_monitoring_noop s id hmon
    refine ⟨h1, ?_⟩
    rw [h2]
    omega

/-- Witness for C10 on the healthy one-monitor state. -/
theorem claim_c10_witness :
    MonInv goodState ∧ MonInv (uty_monitor_set goodState 1 true) ∧
    MonInv (vty_monitor_set_level goodState 0 7) ∧
    (uty_monitor_set goodState 0 true).mlist = goodState.mlist ∧
    (uty_monitor_set goodState 0 true).monitor_count = goodState.monitor_count ∧
    (uty_monitor_set goodState 5 false).mlist = goodState.mlist ∧
    (uty_monitor_set goodState 5 false).monitor_count = goodState.monitor_count :=
  ⟨goodState_inv,
   claim_c10_monitor_bookkeeping.1 goodState 1 true goodState_inv,
   claim_c10_monitor_bookkeeping.2.1 goodState 0 7 goodState_inv,
   (claim_c10_monitor_bookkeeping.2.2.2.1 goodState 0 goodState_inv rfl rfl rfl).1,
   (claim_c10_monitor_bookkeeping.2.2.2.1 goodState 0 goodState_inv rfl rfl rfl).2,
   (claim_c10_monitor_bookkeeping.2.2.2.2 goodState 5 goodState_inv rfl).1,
   (claim_c10_monitor_bookkeeping.2.2.2.2 goodState 5 goodState_inv rfl).2⟩

end Vty
